import Mathlib

/-!
Shallow embedding of `local/compose/down.go` from the compose-cli repository:
the teardown path (`Down`, `stopContainers`, `removeContainers`,
`projectFromContainerLabels`, `loadProjectOptionsFromLabels`) together with
models of the collaborators the file calls into (container runtime client,
definition parser, progress sink, the `Containers.split` helper and the
reverse-dependency-order executor that live in sibling files of the repo).

Events and runtime calls are recorded in an explicit operation trace.
The concurrency of `removeContainers` (one goroutine per container via an
errgroup) is embedded by a schedule parameter: Go's `for _, container :=
range containers` shares one loop variable among all closures, so the value
of `container` observed by the goroutine spawned at index `i` may be any
element `batch[j]` with `i ≤ j < batch.length`; the schedule `σ` picks that
`j`.  The per-iteration copy `toDelete := container` is always `batch[i]`.
The recorded trace is the sequential interleaving of the units in spawn
order, one of the interleavings the Go scheduler can produce; the batch
error is the first unit error in that order (`errgroup.Wait`).
-/

/-- Kinds of progress lifecycle events (`progress.StoppingEvent` etc.). -/
inductive EventKind where
  | stopping
  | stopped
  | removing
  | removed
  | error
deriving DecidableEq

/-- A progress event: kind, resource name, and optional error detail
(the second argument of `progress.ErrorMessageEvent`). -/
structure Event where
  kind : EventKind
  resource : String
  detail : String
deriving DecidableEq

/-- One observable operation of the teardown: an emitted event, or a call
into the runtime client (stop, remove, list containers, list networks,
remove network), with the identifier or filter it was called with. -/
inductive Op where
  | ev (e : Event)
  | stopCall (id : String)
  | removeCall (id : String)
  | containerListCall (filter : String)
  | networkListCall (filter : String)
  | networkRemoveCall (id : String)
deriving DecidableEq

/-- A runtime container record: identifier, display name and labels
(`moby.Container`; the label map is embedded as an association list and a
missing key reads as `""`, as a Go map read does). -/
structure Container where
  id : String
  name : String
  labels : List (String × String)
deriving DecidableEq

/-- Reading a label from a container; a missing key yields `""` like a Go
map read. -/
def lookupLabel (c : Container) (key : String) : String :=
  (c.labels.lookup key).getD ""

def defaultContainer : Container := ⟨"", "", []⟩

/-- The project-name label key (defined in `labels.go` of the repository). -/
def projectLabel : String := "com.docker.compose.project"

/-- The service-name label key. -/
def serviceLabel : String := "com.docker.compose.service"

/-- The comma-separated declaration-file-paths label key. -/
def configFilesLabel : String := "com.docker.compose.project.config_files"

/-- The working-directory label key. -/
def workingDirLabel : String := "com.docker.compose.project.working_dir"

/-- A runtime network record (`moby` network resource: ID and name). -/
structure Network where
  id : String
  name : String
deriving DecidableEq

/-- A declared service: name and the names of the services it depends on
(`types.ServiceConfig`; reconstructed services carry only a name). -/
structure Service where
  name : String
  dependsOn : List String
deriving DecidableEq

/-- A project: name plus its declared services (`types.Project`). -/
structure Project where
  name : String
  services : List Service
deriving DecidableEq

/-- Options recovered from labels for re-parsing (`cli.ProjectOptions`):
config paths, working directory, project name. -/
structure ProjectOptions where
  configPaths : List String
  workingDir : String
  name : String
deriving DecidableEq

/-- The options of `Down` (`compose.DownOptions`): an optional
already-parsed project and the remove-orphans flag. -/
structure DownOptions where
  project : Option Project
  removeOrphans : Bool
deriving DecidableEq

/-- Errors surfaced by the teardown.  Runtime and parse errors carry the
collaborator's message; `cycle` is the executor's dependency-cycle error;
`panicIndex` models the Go panic that an out-of-bounds `ConfigPaths[0]`
read would raise. -/
inductive Err where
  | runtime (msg : String)
  | parse (msg : String)
  | cycle
  | panicIndex
deriving DecidableEq

/-- Outcome of a network removal request: success, a "not found /
already removed" report, or another failure. -/
inductive NetRemoveResult where
  | ok
  | notFound
  | failed (msg : String)
deriving DecidableEq

/-- The external collaborators consumed by the teardown, as response
functions: the runtime client (list/stop/remove containers, list/remove
networks, each keyed by the filter or identifier of the request) and the
definition parser. -/
structure Runtime where
  containerList : String → Except String (List Container)
  containerStop : String → Option String
  containerRemove : String → Option String
  networkList : String → Except String (List Network)
  networkRemove : String → NetRemoveResult
  parseProject : ProjectOptions → Except String Project

/-- Modelled from the spec: `getCanonicalContainerName` (defined in a
sibling file of the repository, not under `src/`) yields the container's
human-readable display name. -/
def getCanonicalContainerName (c : Container) : String := c.name

/-- The event name used for a container's lifecycle events. -/
def eventNameOf (c : Container) : String :=
  "Container " ++ getCanonicalContainerName c

/-- Modelled from the spec: `isService` (defined in `containers.go` of the
repository, not under `src/`) is the predicate over the service-name label
handed to `Containers.split`. -/
def isService (name : String) (c : Container) : Bool :=
  lookupLabel c serviceLabel == name

/-- An ordered resource set of container records (`Containers`). -/
abbrev Containers := List Container

/-- Modelled from the spec: `Containers.split` (defined in `containers.go`
of the repository, not under `src/`) partitions an ordered container set by
a predicate into (matched, remainder), non-destructively and preserving
input order in both outputs. -/
def Containers.split (containers : Containers) (predicate : Container → Bool) :
    Containers × Containers :=
  match containers with
  | [] => ([], [])
  | c :: rest =>
    let r := Containers.split rest predicate
    if predicate c then (c :: r.1, r.2) else (r.1, c :: r.2)

/-- `stopContainers`: for each container emit `stopping`, request a stop
from the runtime, and emit `stopped` on success or an
"Error while Stopping" `error` event on failure, returning the first
failure. -/
def stopContainers (rt : Runtime) : List Container → List Op × Option Err
  | [] => ([], none)
  | c :: rest =>
    let eventName := eventNameOf c
    match rt.containerStop c.id with
    | some e =>
      ([Op.ev ⟨EventKind.stopping, eventName, ""⟩, Op.stopCall c.id,
        Op.ev ⟨EventKind.error, eventName, "Error while Stopping"⟩],
       some (Err.runtime e))
    | none =>
      let r := stopContainers rt rest
      (Op.ev ⟨EventKind.stopping, eventName, ""⟩ :: Op.stopCall c.id ::
         Op.ev ⟨EventKind.stopped, eventName, ""⟩ :: r.1,
       r.2)

/-- One unit of concurrent work of `removeContainers`: the body of the
closure passed to `eg.Go`.  `stopTarget` is the value of the shared loop
variable `container` observed when the closure runs; `toDelete` is the
per-iteration copy.  The closure stops `stopTarget` (via `stopContainers`
on a singleton), then force-removes `toDelete`, emitting `removing` and
`removed`/error events named after `toDelete`. -/
def removeUnit (rt : Runtime) (stopTarget toDelete : Container) :
    List Op × Option Err :=
  let eventName := eventNameOf toDelete
  let r := stopContainers rt [stopTarget]
  match r.2 with
  | some e => (r.1, some e)
  | none =>
    match rt.containerRemove toDelete.id with
    | some e =>
      (r.1 ++ [Op.ev ⟨EventKind.removing, eventName, ""⟩,
               Op.removeCall toDelete.id,
               Op.ev ⟨EventKind.error, eventName, "Error while Removing"⟩],
       some (Err.runtime e))
    | none =>
      (r.1 ++ [Op.ev ⟨EventKind.removing, eventName, ""⟩,
               Op.removeCall toDelete.id,
               Op.ev ⟨EventKind.removed, eventName, ""⟩],
       none)

/-- The index of the batch element the goroutine spawned at index `i`
observes in the shared loop variable: the schedule's choice `σ i` when it
is a legal observation (at least `i`, within the batch), else `i` itself. -/
def stopIndex (σ : Nat → Nat) (n i : Nat) : Nat :=
  if i ≤ σ i ∧ σ i < n then σ i else i

/-- The container the unit spawned at index `i` stops. -/
def stopTargetAt (σ : Nat → Nat) (batch : List Container) (i : Nat) : Container :=
  batch.getD (stopIndex σ batch.length i) defaultContainer

/-- The per-unit results of `removeContainers` under schedule `σ`, in spawn
order: unit `i` stops `stopTargetAt σ batch i` and removes `batch[i]`. -/
def removeContainersUnits (rt : Runtime) (σ : Nat → Nat) (batch : List Container) :
    List (List Op × Option Err) :=
  (List.range batch.length).map fun i =>
    removeUnit rt (stopTargetAt σ batch i) (batch.getD i defaultContainer)

/-- `removeContainers`: run one unit per container concurrently under an
errgroup; the trace is the sequential interleaving of the units in spawn
order and the result is the first unit error (`eg.Wait`). -/
def removeContainers (rt : Runtime) (σ : Nat → Nat) (batch : List Container) :
    List Op × Option Err :=
  let units := removeContainersUnits rt σ batch
  ((units.map Prod.fst).flatten, (units.filterMap Prod.snd).head?)

/-- Go `strings.Split(s, ",")` on the character list: cut at every comma;
always yields at least one (possibly empty) segment. -/
def splitCommaChars : List Char → List Char → List (List Char)
  | [], acc => [acc.reverse]
  | ch :: rest, acc =>
    if ch = ',' then acc.reverse :: splitCommaChars rest []
    else splitCommaChars rest (ch :: acc)

/-- Go `strings.Split(s, ",")`. -/
def splitComma (s : String) : List String :=
  (splitCommaChars s.toList []).map List.asString

/-- Go `path/filepath.Base`: `""` yields `"."`, a string of separators
yields `"/"`, otherwise the last path component with trailing separators
removed. -/
def filepathBase (p : String) : String :=
  if p = "" then "."
  else
    let stripped := (p.toList.reverse.dropWhile (fun ch => ch = '/')).reverse
    if stripped = [] then "/"
    else ((stripped.reverse.takeWhile (fun ch => ch ≠ '/')).reverse).asString

/-- `loadProjectOptionsFromLabels`: split the config-files label on commas,
base-name every segment, and carry the working-directory and project-name
labels. -/
def loadProjectOptionsFromLabels (c : Container) : ProjectOptions :=
  let relativePathConfigFiles := splitComma (lookupLabel c configFilesLabel)
  let configFiles := relativePathConfigFiles.map filepathBase
  ⟨configFiles, lookupLabel c workingDirLabel, lookupLabel c projectLabel⟩

/-- `projectFromContainerLabels`: list the project's containers; none means
a bare project with the given name; otherwise recover options from the
first container's labels and either synthesize one service per container
(when the first config path is the stdin sentinel `"-"`) or re-parse the
declaration files.  The `ConfigPaths[0]` read is embedded as a match whose
empty branch is the Go index-out-of-range panic. -/
def projectFromContainerLabels (rt : Runtime) (projectName : String) :
    List Op × Except Err Project :=
  let ops := [Op.containerListCall projectName]
  match rt.containerList projectName with
  | Except.error e => (ops, Except.error (Err.runtime e))
  | Except.ok containers =>
    match containers with
    | [] => (ops, Except.ok ⟨projectName, []⟩)
    | c :: _ =>
      let options := loadProjectOptionsFromLabels c
      match options.configPaths with
      | [] => (ops, Except.error Err.panicIndex)
      | p0 :: _ =>
        if p0 = "-" then
          (ops, Except.ok ⟨projectName,
            containers.map fun x => ⟨lookupLabel x serviceLabel, []⟩⟩)
        else
          match rt.parseProject options with
          | Except.error e => (ops, Except.error (Err.parse e))
          | Except.ok project => (ops, Except.ok project)

/-- Whether a pending service is ready to be emitted in the forward
(dependency-first) topological order: every dependency is already emitted
or names no still-pending service (unresolvable references are ignorable). -/
def readyService (done : List String) (pending : List Service) (s : Service) : Bool :=
  s.dependsOn.all fun d =>
    done.contains d || !(pending.any fun t => t.name == d)

/-- Fuel-indexed Kahn-style topological sort of the declared services,
dependencies first; reports a cycle when no pending service is ready. -/
def topoGo : Nat → List String → List Service → Except Err (List Service)
  | 0, _, pending =>
    if pending.isEmpty then Except.ok [] else Except.error Err.cycle
  | fuel + 1, done, pending =>
    if pending.isEmpty then Except.ok []
    else
      match pending.find? (readyService done pending) with
      | none => Except.error Err.cycle
      | some s =>
        match topoGo fuel (s.name :: done) (pending.erase s) with
        | Except.error e => Except.error e
        | Except.ok rest => Except.ok (s :: rest)

/-- Forward (dependency-first) topological order of the declared services. -/
def topoForward (svcs : List Service) : Except Err (List Service) :=
  topoGo svcs.length [] svcs

/-- Modelled from the spec: the visiting order of `InReverseDependencyOrder`
(defined in `dependencies.go` of the repository, not under `src/`): the
reverse of the forward topological order, failing with the cycle error on a
cyclic graph. -/
def inReverseDependencyOrderPlan (svcs : List Service) : Except Err (List Service) :=
  match topoForward svcs with
  | Except.error e => Except.error e
  | Except.ok l => Except.ok l.reverse

/-- Modelled from the spec: `ensureNetworkDown` (defined in a sibling file
of the repository, not under `src/`) requests removal of one network and
treats a "not found / already removed" report as success. -/
def ensureNetworkDown (rt : Runtime) (id : String) : Option Err :=
  match rt.networkRemove id with
  | NetRemoveResult.ok => none
  | NetRemoveResult.notFound => none
  | NetRemoveResult.failed e => some (Err.runtime e)

/-- The concurrent network removal fan-out at the end of `Down`: one
removal request per listed network; the result is the first failure. -/
def networkSweep (rt : Runtime) (networks : List Network) : List Op × Option Err :=
  (networks.map fun n => Op.networkRemoveCall n.id,
   (networks.filterMap fun n => ensureNetworkDown rt n.id).head?)

/-- The per-service action loop of `Down` run by the executor over the
reverse-dependency order: split off the service's containers, tear them
down, narrow the working set to the remainder, and stop at the first batch
error.  `k` numbers the batches so each gets its own schedule. -/
def runServices (rt : Runtime) (scheds : Nat → Nat → Nat) :
    Nat → List Container → List Service → List Op × List Container × Option Err
  | _, remaining, [] => ([], remaining, none)
  | k, remaining, s :: rest =>
    let p := Containers.split remaining (isService s.name)
    let r := removeContainers rt (scheds k) p.1
    match r.2 with
    | some e => (r.1, p.2, some e)
    | none =>
      let rec2 := runServices rt scheds (k + 1) p.2 rest
      (r.1 ++ rec2.1, rec2.2.1, rec2.2.2)

/-- The final stage of `Down`: list the networks filtered by the
`projectName` argument and sweep them concurrently, appending to the
operations already performed. -/
def downNetworks (rt : Runtime) (projectName : String) (opsPre : List Op) :
    List Op × Option Err :=
  match rt.networkList projectName with
  | Except.error e =>
    (opsPre ++ [Op.networkListCall projectName], some (Err.runtime e))
  | Except.ok networks =>
    let sweep := networkSweep rt networks
    (opsPre ++ [Op.networkListCall projectName] ++ sweep.1, sweep.2)

/-- The tail of `Down` once the reverse-dependency order is known: run the
per-service loop, optionally tear down the orphan remainder, then list the
networks by the `projectName` argument and sweep them. -/
def downBody (rt : Runtime) (projectName : String) (options : DownOptions)
    (scheds : Nat → Nat → Nat) (containers : List Container)
    (order : List Service) : List Op × Option Err :=
  let r := runServices rt scheds 0 containers order
  match r.2.2 with
  | some e => (r.1, some e)
  | none =>
    let remaining := r.2.1
    let orphan :=
      if options.removeOrphans ∧ remaining ≠ [] then
        removeContainers rt (scheds order.length) remaining
      else ([], none)
    match orphan.2 with
    | some e => (r.1 ++ orphan.1, some e)
    | none => downNetworks rt projectName (r.1 ++ orphan.1)

/-- `Down` after the project is resolved: list the containers filtered by
`options.Project.Name`, plan the reverse-dependency order, and run the
body. -/
def downWithProject (rt : Runtime) (projectName : String) (options : DownOptions)
    (scheds : Nat → Nat → Nat) (ops0 : List Op) (project : Project) :
    List Op × Option Err :=
  match rt.containerList project.name with
  | Except.error e =>
    (ops0 ++ [Op.containerListCall project.name], some (Err.runtime e))
  | Except.ok containers =>
    match inReverseDependencyOrderPlan project.services with
    | Except.error e => (ops0 ++ [Op.containerListCall project.name], some e)
    | Except.ok order =>
      let r := downBody rt projectName options scheds containers order
      (ops0 ++ [Op.containerListCall project.name] ++ r.1, r.2)

/-- `Down`: reconstruct the project from container labels when none is
supplied, then tear it down. -/
def Down (rt : Runtime) (projectName : String) (options : DownOptions)
    (scheds : Nat → Nat → Nat) : List Op × Option Err :=
  match options.project with
  | some project => downWithProject rt projectName options scheds [] project
  | none =>
    let r := projectFromContainerLabels rt projectName
    match r.2 with
    | Except.error e => (r.1, some e)
    | Except.ok project => downWithProject rt projectName options scheds r.1 project

/-! ### Helper lemmas -/

theorem getD_mem_of_lt {α : Type _} (l : List α) (i : Nat) (d : α)
    (h : i < l.length) : l.getD i d ∈ l := by
  induction l generalizing i with
  | nil => simp at h
  | cons a t ih =>
    cases i with
    | zero => simp
    | succ n =>
      simp only [List.getD_cons_succ]
      exact List.mem_cons_of_mem a (ih n (by simpa using h))

theorem splitCommaChars_ne_nil (cs : List Char) :
    ∀ acc, splitCommaChars cs acc ≠ [] := by
  induction cs with
  | nil => intro acc; simp [splitCommaChars]
  | cons ch rest ih =>
    intro acc
    by_cases h : ch = ','
    · simp [splitCommaChars, h]
    · simpa [splitCommaChars, h] using ih (ch :: acc)

theorem configPaths_ne_nil (c : Container) :
    (loadProjectOptionsFromLabels c).configPaths ≠ [] := by
  simp only [loadProjectOptionsFromLabels, splitComma]
  intro h
  rcases List.map_eq_nil_iff.mp (List.map_eq_nil_iff.mp h) with h2
  exact splitCommaChars_ne_nil _ _ h2

theorem stopIndex_lt (σ : Nat → Nat) (n i : Nat) (h : i < n) :
    stopIndex σ n i < n := by
  unfold stopIndex
  split
  · exact (by assumption : i ≤ σ i ∧ σ i < n).2
  · exact h

theorem split_eq_filter (cs : Containers) (p : Container → Bool) :
    Containers.split cs p = (cs.filter p, cs.filter fun c => !(p c)) := by
  induction cs with
  | nil => rfl
  | cons c rest ih =>
    cases hpc : p c <;>
      simp [Containers.split, ih, List.filter_cons, hpc]

/-- The shapes an operation produced on behalf of container `x` can take:
a stop or remove call with `x`'s identifier, or an event named after `x`. -/
def opMentions (x : Container) (op : Op) : Prop :=
  op = Op.stopCall x.id ∨ op = Op.removeCall x.id ∨
  ∃ k d, op = Op.ev ⟨k, eventNameOf x, d⟩

theorem stopContainers_ops_mentions (rt : Runtime) (cs : List Container) :
    ∀ op ∈ (stopContainers rt cs).1, ∃ x ∈ cs, opMentions x op := by
  induction cs with
  | nil => intro op h; simp [stopContainers] at h
  | cons c rest ih =>
    intro op h
    cases hstop : rt.containerStop c.id with
    | some e =>
      simp only [stopContainers, hstop, List.mem_cons, List.not_mem_nil,
        or_false] at h
      refine ⟨c, List.mem_cons_self c rest, ?_⟩
      rcases h with h | h | h
      · exact Or.inr (Or.inr ⟨EventKind.stopping, "", by rw [h]⟩)
      · exact Or.inl h
      · exact Or.inr (Or.inr ⟨EventKind.error, "Error while Stopping", by rw [h]⟩)
    | none =>
      simp only [stopContainers, hstop, List.mem_cons] at h
      rcases h with h | h | h | h
      · exact ⟨c, List.mem_cons_self c rest,
          Or.inr (Or.inr ⟨EventKind.stopping, "", by rw [h]⟩)⟩
      · exact ⟨c, List.mem_cons_self c rest, Or.inl h⟩
      · exact ⟨c, List.mem_cons_self c rest,
          Or.inr (Or.inr ⟨EventKind.stopped, "", by rw [h]⟩)⟩
      · rcases ih op h with ⟨x, hx, hm⟩
        exact ⟨x, List.mem_cons_of_mem c hx, hm⟩

theorem removeUnit_ops_mentions (rt : Runtime) (st td : Container) :
    ∀ op ∈ (removeUnit rt st td).1, opMentions st op ∨ opMentions td op := by
  intro op h
  have hst : ∀ o ∈ (stopContainers rt [st]).1, opMentions st o := by
    intro o ho
    rcases stopContainers_ops_mentions rt [st] o ho with ⟨x, hx, hm⟩
    simp only [List.mem_singleton] at hx
    exact hx ▸ hm
  rcases hsc : stopContainers rt [st] with ⟨sops, serr⟩
  rw [hsc] at hst
  cases serr with
  | some e =>
    simp only [removeUnit, hsc] at h
    exact Or.inl (hst op h)
  | none =>
    cases hr : rt.containerRemove td.id with
    | some e =>
      simp only [removeUnit, hsc, hr] at h
      rcases List.mem_append.mp h with h | h
      · exact Or.inl (hst op h)
      · refine Or.inr ?_
        simp only [List.mem_cons, List.not_mem_nil, or_false] at h
        rcases h with h | h | h
        · exact Or.inr (Or.inr ⟨EventKind.removing, "", by rw [h]⟩)
        · exact Or.inr (Or.inl h)
        · exact Or.inr (Or.inr ⟨EventKind.error, "Error while Removing", by rw [h]⟩)
    | none =>
      simp only [removeUnit, hsc, hr] at h
      rcases List.mem_append.mp h with h | h
      · exact Or.inl (hst op h)
      · refine Or.inr ?_
        simp only [List.mem_cons, List.not_mem_nil, or_false] at h
        rcases h with h | h | h
        · exact Or.inr (Or.inr ⟨EventKind.removing, "", by rw [h]⟩)
        · exact Or.inr (Or.inl h)
        · exact Or.inr (Or.inr ⟨EventKind.removed, "", by rw [h]⟩)

theorem removeContainers_ops_mentions (rt : Runtime) (σ : Nat → Nat)
    (batch : List Container) :
    ∀ op ∈ (removeContainers rt σ batch).1, ∃ x ∈ batch, opMentions x op := by
  intro op h
  simp only [removeContainers] at h
  rcases List.mem_flatten.mp h with ⟨l, hl, hop⟩
  rcases List.mem_map.mp hl with ⟨u, hu, hlu⟩
  rcases List.mem_map.mp hu with ⟨i, hi, hui⟩
  have hilt : i < batch.length := List.mem_range.mp hi
  have hops : op ∈ (removeUnit rt (stopTargetAt σ batch i)
      (batch.getD i defaultContainer)).1 := by
    rw [← hui] at hlu; rw [← hlu] at hop; exact hop
  rcases removeUnit_ops_mentions rt _ _ op hops with hm | hm
  · exact ⟨stopTargetAt σ batch i,
      getD_mem_of_lt batch _ _ (stopIndex_lt σ batch.length i hilt), hm⟩
  · exact ⟨batch.getD i defaultContainer, getD_mem_of_lt batch i _ hilt, hm⟩

theorem split_fst_mem {cs : Containers} {p : Container → Bool} {x : Container}
    (h : x ∈ (Containers.split cs p).1) : x ∈ cs ∧ p x = true := by
  rw [split_eq_filter] at h
  simpa using List.mem_filter.mp h

theorem split_snd_mem {cs : Containers} {p : Container → Bool} {x : Container}
    (h : x ∈ (Containers.split cs p).2) : x ∈ cs ∧ p x = false := by
  rw [split_eq_filter] at h
  have h2 := List.mem_filter.mp h
  exact ⟨h2.1, by simpa using h2.2⟩

theorem runServices_ops_mentions (rt : Runtime) (scheds : Nat → Nat → Nat)
    (order : List Service) :
    ∀ (k : Nat) (remaining : List Container),
      ∀ op ∈ (runServices rt scheds k remaining order).1,
        ∃ s ∈ order, ∃ x ∈ remaining, isService s.name x = true ∧ opMentions x op := by
  induction order with
  | nil =>
    intro k remaining op h
    simp [runServices] at h
  | cons s rest ih =>
    intro k remaining op h
    rcases hrc : removeContainers rt (scheds k)
        (Containers.split remaining (isService s.name)).1 with ⟨ops1, err1⟩
    have hbatch : ∀ o ∈ ops1,
        ∃ x ∈ remaining, isService s.name x = true ∧ opMentions x o := by
      intro o ho
      have ho2 : o ∈ (removeContainers rt (scheds k)
          (Containers.split remaining (isService s.name)).1).1 := by
        rw [hrc]; exact ho
      rcases removeContainers_ops_mentions rt (scheds k) _ o ho2 with ⟨x, hx, hm⟩
      rcases split_fst_mem hx with ⟨hxr, hpx⟩
      exact ⟨x, hxr, hpx, hm⟩
    cases err1 with
    | some e =>
      simp only [runServices, hrc] at h
      rcases hbatch op h with ⟨x, hx, hp, hm⟩
      exact ⟨s, List.mem_cons_self s rest, x, hx, hp, hm⟩
    | none =>
      simp only [runServices, hrc] at h
      rcases List.mem_append.mp h with h | h
      · rcases hbatch op h with ⟨x, hx, hp, hm⟩
        exact ⟨s, List.mem_cons_self s rest, x, hx, hp, hm⟩
      · rcases ih (k + 1) (Containers.split remaining (isService s.name)).2 op h
          with ⟨t, ht, x, hx, hp, hm⟩
        exact ⟨t, List.mem_cons_of_mem s ht, x, (split_snd_mem hx).1, hp, hm⟩

theorem runServices_remaining_subset (rt : Runtime) (scheds : Nat → Nat → Nat)
    (order : List Service) :
    ∀ (k : Nat) (remaining : List Container),
      ∀ x ∈ (runServices rt scheds k remaining order).2.1, x ∈ remaining := by
  induction order with
  | nil =>
    intro k remaining x h
    simpa [runServices] using h
  | cons s rest ih =>
    intro k remaining x h
    rcases hrc : removeContainers rt (scheds k)
        (Containers.split remaining (isService s.name)).1 with ⟨ops1, err1⟩
    cases err1 with
    | some e =>
      simp only [runServices, hrc] at h
      exact (split_snd_mem h).1
    | none =>
      simp only [runServices, hrc] at h
      exact (split_snd_mem (ih (k + 1) _ x h)).1

theorem topoGo_subset (fuel : Nat) :
    ∀ (done : List String) (pending l : List Service),
      topoGo fuel done pending = Except.ok l → ∀ s ∈ l, s ∈ pending := by
  induction fuel with
  | zero =>
    intro done pending l h s hs
    simp only [topoGo] at h
    split at h
    · cases h; simp at hs
    · cases h
  | succ n ih =>
    intro done pending l h s hs
    simp only [topoGo] at h
    by_cases hp : pending.isEmpty
    · rw [if_pos hp] at h
      cases h; simp at hs
    · rw [if_neg hp] at h
      cases hfind : pending.find? (readyService done pending) with
      | none => rw [hfind] at h; cases h
      | some t =>
        simp only [hfind] at h
        cases hrec : topoGo n (t.name :: done) (pending.erase t) with
        | error e => rw [hrec] at h; cases h
        | ok rest =>
          rw [hrec] at h
          cases h
          rcases List.mem_cons.mp hs with hs | hs
          · exact hs ▸ List.mem_of_find?_eq_some hfind
          · exact List.erase_subset t pending (ih _ _ _ hrec s hs)

theorem plan_subset {svcs order : List Service}
    (h : inReverseDependencyOrderPlan svcs = Except.ok order) :
    ∀ s ∈ order, s ∈ svcs := by
  intro s hs
  unfold inReverseDependencyOrderPlan at h
  cases htf : topoForward svcs with
  | error e => rw [htf] at h; cases h
  | ok l =>
    rw [htf] at h
    cases h
    exact topoGo_subset svcs.length [] svcs l htf s (List.mem_reverse.mp hs)

theorem opMentions_shape {x : Container} {op : Op} (h : opMentions x op) :
    (∀ f, op ≠ Op.containerListCall f) ∧ (∀ f, op ≠ Op.networkListCall f) ∧
    (∀ i, op ≠ Op.networkRemoveCall i) := by
  rcases h with h | h | ⟨k, d, h⟩ <;> subst h <;>
    exact ⟨fun _ => by simp, fun _ => by simp, fun _ => by simp⟩

theorem downNetworks_ops (rt : Runtime) (pn : String) (opsPre : List Op) :
    ∀ op ∈ (downNetworks rt pn opsPre).1,
      op ∈ opsPre ∨ op = Op.networkListCall pn ∨
      ∃ i, op = Op.networkRemoveCall i := by
  intro op h
  cases hnl : rt.networkList pn with
  | error e =>
    simp only [downNetworks, hnl] at h
    rcases List.mem_append.mp h with h | h
    · exact Or.inl h
    · simp only [List.mem_singleton] at h
      exact Or.inr (Or.inl h)
  | ok networks =>
    simp only [downNetworks, hnl] at h
    rcases List.mem_append.mp h with h | h
    · rcases List.mem_append.mp h with h | h
      · exact Or.inl h
      · simp only [List.mem_singleton] at h
        exact Or.inr (Or.inl h)
    · simp only [networkSweep] at h
      rcases List.mem_map.mp h with ⟨n, _, hop⟩
      exact Or.inr (Or.inr ⟨n.id, hop.symm⟩)

theorem downBody_ops_weak (rt : Runtime) (pn : String) (options : DownOptions)
    (scheds : Nat → Nat → Nat) (containers : List Container)
    (order : List Service) :
    ∀ op ∈ (downBody rt pn options scheds containers order).1,
      op = Op.networkListCall pn ∨ (∃ i, op = Op.networkRemoveCall i) ∨
      ∃ x, opMentions x op := by
  intro op h
  have hrsm : ∀ o ∈ (runServices rt scheds 0 containers order).1,
      ∃ x, opMentions x o := by
    intro o ho
    rcases runServices_ops_mentions rt scheds order 0 containers o ho
      with ⟨s, _, x, _, _, hm⟩
    exact ⟨x, hm⟩
  rcases hrs : runServices rt scheds 0 containers order with ⟨ops1, rem, err⟩
  rw [hrs] at hrsm
  cases err with
  | some e =>
    simp only [downBody, hrs] at h
    exact Or.inr (Or.inr (hrsm op h))
  | none =>
    by_cases hcond : options.removeOrphans = true ∧ rem ≠ []
    · rcases hoc : removeContainers rt (scheds order.length) rem with ⟨ops2, err2⟩
      have horphm : ∀ o ∈ ops2, ∃ x, opMentions x o := by
        intro o ho
        rcases removeContainers_ops_mentions rt (scheds order.length) rem o
          (by rw [hoc]; exact ho) with ⟨x, _, hm⟩
        exact ⟨x, hm⟩
      cases err2 with
      | some e =>
        simp only [downBody, hrs, if_pos hcond, hoc] at h
        rcases List.mem_append.mp h with h | h
        · exact Or.inr (Or.inr (hrsm op h))
        · exact Or.inr (Or.inr (horphm op h))
      | none =>
        simp only [downBody, hrs, if_pos hcond, hoc] at h
        rcases downNetworks_ops rt pn _ op h with h | h | h
        · rcases List.mem_append.mp h with h | h
          · exact Or.inr (Or.inr (hrsm op h))
          · exact Or.inr (Or.inr (horphm op h))
        · exact Or.inl h
        · exact Or.inr (Or.inl h)
    · simp only [downBody, hrs, if_neg hcond] at h
      rcases downNetworks_ops rt pn _ op h with h | h | h
      · rcases List.mem_append.mp h with h | h
        · exact Or.inr (Or.inr (hrsm op h))
        · simp at h
      · exact Or.inl h
      · exact Or.inr (Or.inl h)

theorem downBody_ops_noorph (rt : Runtime) (pn : String) (options : DownOptions)
    (scheds : Nat → Nat → Nat) (containers : List Container)
    (order : List Service) (hno : options.removeOrphans = false) :
    ∀ op ∈ (downBody rt pn options scheds containers order).1,
      op = Op.networkListCall pn ∨ (∃ i, op = Op.networkRemoveCall i) ∨
      ∃ s ∈ order, ∃ x ∈ containers, isService s.name x = true ∧ opMentions x op := by
  intro op h
  have hrsm := runServices_ops_mentions rt scheds order 0 containers
  rcases hrs : runServices rt scheds 0 containers order with ⟨ops1, rem, err⟩
  rw [hrs] at hrsm
  cases err with
  | some e =>
    simp only [downBody, hrs] at h
    exact Or.inr (Or.inr (hrsm op h))
  | none =>
    have hcond : ¬(options.removeOrphans = true ∧ rem ≠ []) := by
      intro hc
      rw [hno] at hc
      exact Bool.false_ne_true hc.1
    simp only [downBody, hrs, if_neg hcond] at h
    rcases downNetworks_ops rt pn _ op h with h | h | h
    · rcases List.mem_append.mp h with h | h
      · exact Or.inr (Or.inr (hrsm op h))
      · simp at h
    · exact Or.inl h
    · exact Or.inr (Or.inl h)

/-! ### Concrete scenarios -/

def cA : Container := ⟨"ida", "ca", [(serviceLabel, "web")]⟩

def cB : Container := ⟨"idb", "cb", [(serviceLabel, "web")]⟩

def cC : Container := ⟨"idc", "cc", [(serviceLabel, "web")]⟩

/-- A runtime on which every stop and removal succeeds. -/
def rtOK : Runtime :=
  ⟨fun _ => Except.ok [], fun _ => none, fun _ => none,
   fun _ => Except.ok [], fun _ => NetRemoveResult.ok,
   fun _ => Except.error "unused"⟩

/-- A runtime on which stopping container `ida` fails and everything else
succeeds. -/
def rtStopAFails : Runtime :=
  ⟨fun _ => Except.ok [], fun i => if i = "ida" then some "boom" else none,
   fun _ => none, fun _ => Except.ok [], fun _ => NetRemoveResult.ok,
   fun _ => Except.error "unused"⟩

/-- A schedule on which every goroutine reads the shared loop variable
after the loop advanced to index 1. -/
def schedLate : Nat → Nat := fun _ => 1

/-- A schedule on which goroutine 0 observes index 1 and the others
observe index 2. -/
def schedSkew : Nat → Nat := fun i => if i = 0 then 1 else 2

/-- The lifecycle event kinds emitted for one resource name, in trace
order. -/
def eventKindsFor (resource : String) (ops : List Op) : List EventKind :=
  ops.filterMap fun op =>
    match op with
    | Op.ev e => if e.resource = resource then some e.kind else none
    | _ => none

def isPrefixList : List EventKind → List EventKind → Bool
  | [], _ => true
  | _ :: _, [] => false
  | a :: as, b :: bs => a == b && isPrefixList as bs

/-- The event order the specification promises per resource. -/
def fullLifecycle : List EventKind :=
  [EventKind.stopping, EventKind.stopped, EventKind.removing, EventKind.removed]

/-- Whether a per-resource kind sequence is allowed by the specification:
a prefix of stopping, stopped, removing, removed (the full sequence
included), or such a prefix interrupted by a single final error event. -/
def allowedKindSeq (l : List EventKind) : Bool :=
  isPrefixList l fullLifecycle ||
  (isPrefixList l.dropLast fullLifecycle && l.getLast? == some EventKind.error)

/-! ### Claim theorems -/

/-- C1: the claim that each unit of concurrent work in `removeContainers`
stops and removes the same container fails on the code: the stop call
receives the shared loop variable (`container`) while the removal receives
the per-iteration copy (`toDelete`).  Under the legal schedule where the
goroutine spawned at index 0 runs after the loop has advanced, its stop
target is `cB` while its removal target is `cA`; the resulting trace shows
unit 0 stopping `idb` and then removing `ida`. -/
theorem c1_stop_remove_target_mismatch :
    stopTargetAt schedLate [cA, cB] 0 ≠ [cA, cB].getD 0 defaultContainer ∧
    stopTargetAt schedLate [cA, cB] 0 = cB ∧
    [cA, cB].getD 0 defaultContainer = cA ∧
    removeContainers rtOK schedLate [cA, cB] =
      ([Op.ev ⟨EventKind.stopping, "Container cb", ""⟩, Op.stopCall "idb",
        Op.ev ⟨EventKind.stopped, "Container cb", ""⟩,
        Op.ev ⟨EventKind.removing, "Container ca", ""⟩, Op.removeCall "ida",
        Op.ev ⟨EventKind.removed, "Container ca", ""⟩,
        Op.ev ⟨EventKind.stopping, "Container cb", ""⟩, Op.stopCall "idb",
        Op.ev ⟨EventKind.stopped, "Container cb", ""⟩,
        Op.ev ⟨EventKind.removing, "Container cb", ""⟩, Op.removeCall "idb",
        Op.ev ⟨EventKind.removed, "Container cb", ""⟩], none) := by
  refine ⟨by decide, by decide, by decide, by decide⟩

/-- C3: the claimed per-resource event order fails on the code: under the
same legal schedule, resource `Container cb` receives stopping, stopped,
stopping, stopped, removing, removed (it is stopped by both units), and
resource `Container ca` receives removing, removed with no stop events at
all; neither sequence is a prefix of the promised order nor such a prefix
interrupted by a single error. -/
theorem c3_event_order_violation :
    eventKindsFor "Container cb" (removeContainers rtOK schedLate [cA, cB]).1 =
      [EventKind.stopping, EventKind.stopped, EventKind.stopping,
       EventKind.stopped, EventKind.removing, EventKind.removed] ∧
    allowedKindSeq
      [EventKind.stopping, EventKind.stopped, EventKind.stopping,
       EventKind.stopped, EventKind.removing, EventKind.removed] = false ∧
    eventKindsFor "Container ca" (removeContainers rtOK schedLate [cA, cB]).1 =
      [EventKind.removing, EventKind.removed] ∧
    allowedKindSeq [EventKind.removing, EventKind.removed] = false := by
  refine ⟨by decide, by decide, by decide, by decide⟩

/-- C4: the claim fails on the code: with batch `[cB, cA, cC]` under a
legal schedule, unit 0 stops `cA`, which fails, so the batch error is
non-nil and an "Error while Stopping" event for `Container ca` is emitted
(both as claimed) — but unit 1, whose per-iteration copy is `cA`, observes
`cC` in the shared loop variable, stops it successfully, and then emits
`removing` and `removed` events for `Container ca`, which the claim says
can never happen. -/
theorem c4_removal_events_after_stop_failure :
    (removeContainers rtStopAFails schedSkew [cB, cA, cC]).2 =
      some (Err.runtime "boom") ∧
    Op.ev ⟨EventKind.error, "Container ca", "Error while Stopping"⟩ ∈
      (removeContainers rtStopAFails schedSkew [cB, cA, cC]).1 ∧
    Op.ev ⟨EventKind.removing, "Container ca", ""⟩ ∈
      (removeContainers rtStopAFails schedSkew [cB, cA, cC]).1 ∧
    Op.ev ⟨EventKind.removed, "Container ca", ""⟩ ∈
      (removeContainers rtStopAFails schedSkew [cB, cA, cC]).1 := by
  refine ⟨by decide, by decide, by decide, by decide⟩

theorem count_filter_add (cs : List Container) (p : Container → Bool)
    (x : Container) :
    (cs.filter p).count x + (cs.filter fun c => !(p c)).count x = cs.count x := by
  have hperm : List.Perm (cs.filter p ++ cs.filter fun c => !(p c)) cs :=
    List.filter_append_perm p cs
  have hcount := hperm.count_eq x
  rw [List.count_append] at hcount
  exact hcount

/-- C6: `Containers.split` is a pure function returning a pair that
partitions its input: it equals the two complementary filters, both outputs
are sublists of the input (hence preserve its relative order), every
element is counted exactly once across the two outputs, no element is in
both, the empty input yields two empty outputs, and a predicate matching
nothing yields the pair (empty, input). -/
theorem c6_split_partition (cs : Containers) (p : Container → Bool) :
    Containers.split cs p = (cs.filter p, cs.filter fun c => !(p c)) ∧
    List.Sublist (Containers.split cs p).1 cs ∧
    List.Sublist (Containers.split cs p).2 cs ∧
    (∀ x, (Containers.split cs p).1.count x + (Containers.split cs p).2.count x
      = cs.count x) ∧
    (∀ x, x ∈ (Containers.split cs p).1 → x ∉ (Containers.split cs p).2) ∧
    Containers.split [] p = ([], []) ∧
    ((∀ c ∈ cs, p c = false) → Containers.split cs p = ([], cs)) := by
  refine ⟨split_eq_filter cs p, ?_, ?_, ?_, ?_, rfl, ?_⟩
  · rw [split_eq_filter]; exact List.filter_sublist cs
  · rw [split_eq_filter]; exact List.filter_sublist cs
  · intro x
    rw [split_eq_filter]
    exact count_filter_add cs p x
  · intro x h1 h2
    have hp1 := (split_fst_mem h1).2
    have hp2 := (split_snd_mem h2).2
    rw [hp1] at hp2
    exact Bool.noConfusion hp2
  · intro hnone
    rw [split_eq_filter]
    refine Prod.ext ?_ ?_
    · show cs.filter p = []
      exact List.filter_eq_nil_iff.mpr fun a ha => by simp [hnone a ha]
    · show cs.filter (fun c => !(p c)) = cs
      exact List.filter_eq_self.mpr fun a ha => by simp [hnone a ha]

/-- C6 witness: the partition property instantiated at a concrete resource
set and the predicate matching nothing. -/
theorem c6_split_partition_witness :
    Containers.split [cA, cB] (fun _ => false) = ([], [cA, cB]) :=
  (c6_split_partition [cA, cB] (fun _ => false)).2.2.2.2.2.2 fun _ _ => rfl

/-- C10: for every container record the recovered options hold at least one
config path (splitting any string on "," yields at least one segment), and
consequently the `ConfigPaths[0]` sentinel read in
`projectFromContainerLabels` can never raise the index-out-of-range
panic. -/
theorem c10_config_paths_nonempty :
    (∀ c : Container,
      ∃ hd tl, (loadProjectOptionsFromLabels c).configPaths = hd :: tl) ∧
    (∀ (rt : Runtime) (pn : String),
      (projectFromContainerLabels rt pn).2 ≠ Except.error Err.panicIndex) := by
  constructor
  · intro c
    rcases hcp : (loadProjectOptionsFromLabels c).configPaths with _ | ⟨hd, tl⟩
    · exact absurd hcp (configPaths_ne_nil c)
    · exact ⟨hd, tl, rfl⟩
  · intro rt pn h
    unfold projectFromContainerLabels at h
    cases hcl : rt.containerList pn with
    | error e => rw [hcl] at h; simp at h
    | ok containers =>
      rw [hcl] at h
      cases containers with
      | nil => simp at h
      | cons c rest =>
        rcases hcp : (loadProjectOptionsFromLabels c).configPaths
          with _ | ⟨p0, ptl⟩
        · exact configPaths_ne_nil c hcp
        · simp only [hcp] at h
          by_cases hp0 : p0 = "-"
          · rw [if_pos hp0] at h; simp at h
          · rw [if_neg hp0] at h
            cases hpp : rt.parseProject (loadProjectOptionsFromLabels c) with
            | error e => rw [hpp] at h; simp at h
            | ok project => rw [hpp] at h; simp at h

/-- C10 witness: the no-panic conclusion applied at a concrete runtime and
project name. -/
theorem c10_config_paths_nonempty_witness :
    (projectFromContainerLabels rtOK "shop").2 ≠ Except.error Err.panicIndex :=
  c10_config_paths_nonempty.2 rtOK "shop"

instance {α β : Type} [DecidableEq α] [DecidableEq β] :
    DecidableEq (Except α β) := fun a b =>
  match a, b with
  | Except.error x, Except.error y =>
    if h : x = y then isTrue (by rw [h])
    else isFalse (by intro hc; cases hc; exact h rfl)
  | Except.ok x, Except.ok y =>
    if h : x = y then isTrue (by rw [h])
    else isFalse (by intro hc; cases hc; exact h rfl)
  | Except.error _, Except.ok _ => isFalse (by intro hc; cases hc)
  | Except.ok _, Except.error _ => isFalse (by intro hc; cases hc)

def cW1 : Container :=
  ⟨"i1", "c1", [(serviceLabel, "web"), (configFilesLabel, "-")]⟩

def cW2 : Container :=
  ⟨"i2", "c2", [(serviceLabel, "web"), (configFilesLabel, "-")]⟩

/-- A runtime holding two containers of the same service whose recovered
config path is the stdin sentinel. -/
def rtSentinelDup : Runtime :=
  ⟨fun _ => Except.ok [cW1, cW2], fun _ => none, fun _ => none,
   fun _ => Except.ok [], fun _ => NetRemoveResult.ok,
   fun _ => Except.error "unused"⟩

/-- C2 counterexample: under the stdin sentinel with two containers sharing
the service-name label "web", reconstruction yields two services, not the
single service per distinct label value the claim promises. -/
theorem c2_duplicate_services_counterexample :
    (loadProjectOptionsFromLabels cW1).configPaths.headD "" = "-" ∧
    (projectFromContainerLabels rtSentinelDup "shop").2 =
      Except.ok ⟨"shop", [⟨"web", []⟩, ⟨"web", []⟩]⟩ ∧
    (["web", "web"] : List String).dedup = ["web"] ∧
    (projectFromContainerLabels rtSentinelDup "shop").2 ≠
      Except.ok ⟨"shop", [⟨"web", []⟩]⟩ := by
  refine ⟨by decide, by decide, by decide, by decide⟩

/-- C2 (amended): under the no-declaration-file sentinel,
`projectFromContainerLabels` returns a Project containing one Service per
labeled container, in listing order, named by that container's service-name
label and with no dependency edges; service entries are therefore
duplicated when several containers share a service name. -/
theorem c2_one_service_per_container (rt : Runtime) (pn : String)
    (c : Container) (cs : List Container)
    (hlist : rt.containerList pn = Except.ok (c :: cs))
    (hsent : (loadProjectOptionsFromLabels c).configPaths.headD "" = "-") :
    (projectFromContainerLabels rt pn).2 =
      Except.ok ⟨pn, (c :: cs).map fun x => ⟨lookupLabel x serviceLabel, []⟩⟩ := by
  rcases hcp : (loadProjectOptionsFromLabels c).configPaths with _ | ⟨p0, ptl⟩
  · exact absurd hcp (configPaths_ne_nil c)
  · rw [hcp] at hsent
    simp only [List.headD_cons] at hsent
    simp only [projectFromContainerLabels, hlist, hcp, hsent, if_pos]

/-- C2 witness: the amended statement at the concrete duplicated-service
runtime. -/
theorem c2_one_service_per_container_witness :
    (projectFromContainerLabels rtSentinelDup "shop").2 =
      Except.ok ⟨"shop", [⟨"web", []⟩, ⟨"web", []⟩]⟩ :=
  c2_one_service_per_container rtSentinelDup "shop" cW1 [cW2] rfl rfl

def cWeb : Container := ⟨"idw", "cw", [(serviceLabel, "web")]⟩

def cCache : Container := ⟨"idcache", "ccache", [(serviceLabel, "cache")]⟩

def pShop : Project := ⟨"shop", [⟨"web", []⟩]⟩

/-- A runtime holding one `web` container whose stop fails. -/
def rtW5 : Runtime :=
  ⟨fun _ => Except.ok [cWeb], fun _ => some "boom", fun _ => none,
   fun _ => Except.ok [], fun _ => NetRemoveResult.ok,
   fun _ => Except.error "unused"⟩

/-- A runtime holding a declared `web` container plus an undeclared `cache`
container; all runtime calls succeed. -/
def rt8 : Runtime :=
  ⟨fun _ => Except.ok [cWeb, cCache], fun _ => none, fun _ => none,
   fun _ => Except.ok [], fun _ => NetRemoveResult.ok,
   fun _ => Except.error "unused"⟩

/-- The schedule on which every goroutine observes its own iteration's
value of the loop variable. -/
def schedsId : Nat → Nat → Nat := fun _ i => i

/-- C5: if the container-teardown batch for some service fails, `Down`
returns that batch's error and its trace is exactly the container listing
followed by the executor's operations up to the failing batch — no orphan
removal happens and the network list/removal sweep is never started. -/
theorem c5_abort_on_batch_error (rt : Runtime) (pn : String)
    (options : DownOptions) (scheds : Nat → Nat → Nat) (project : Project)
    (containers : List Container) (order : List Service) (ops : List Op)
    (rem : List Container) (e : Err)
    (hproj : options.project = some project)
    (hlist : rt.containerList project.name = Except.ok containers)
    (hplan : inReverseDependencyOrderPlan project.services = Except.ok order)
    (hrun : runServices rt scheds 0 containers order = (ops, rem, some e)) :
    Down rt pn options scheds =
      (Op.containerListCall project.name :: ops, some e) ∧
    ∀ op ∈ (Down rt pn options scheds).1,
      (∀ s, op ≠ Op.networkListCall s) ∧ (∀ i, op ≠ Op.networkRemoveCall i) := by
  have hdown : Down rt pn options scheds =
      (Op.containerListCall project.name :: ops, some e) := by
    simp only [Down, hproj, downWithProject, hlist, hplan, downBody, hrun]
    simp
  refine ⟨hdown, ?_⟩
  intro op hop
  rw [hdown] at hop
  rcases List.mem_cons.mp hop with hop | hop
  · subst hop
    exact ⟨fun s hc => Op.noConfusion hc, fun i hc => Op.noConfusion hc⟩
  · have hops : op ∈ (runServices rt scheds 0 containers order).1 := by
      rw [hrun]; exact hop
    rcases runServices_ops_mentions rt scheds order 0 containers op hops
      with ⟨s, _, x, _, _, hm⟩
    rcases opMentions_shape hm with ⟨_, h2, h3⟩
    exact ⟨h2, h3⟩

/-- C5 witness: the abort behavior at a concrete one-service project whose
only container fails to stop. -/
theorem c5_abort_on_batch_error_witness :
    Down rtW5 "shop" ⟨some pShop, false⟩ schedsId =
      ([Op.containerListCall "shop",
        Op.ev ⟨EventKind.stopping, "Container cw", ""⟩, Op.stopCall "idw",
        Op.ev ⟨EventKind.error, "Container cw", "Error while Stopping"⟩],
       some (Err.runtime "boom")) :=
  (c5_abort_on_batch_error rtW5 "shop" ⟨some pShop, false⟩ schedsId pShop
    [cWeb] [⟨"web", []⟩]
    [Op.ev ⟨EventKind.stopping, "Container cw", ""⟩, Op.stopCall "idw",
     Op.ev ⟨EventKind.error, "Container cw", "Error while Stopping"⟩]
    [] (Err.runtime "boom") rfl rfl (by decide) (by decide)).1

/-- C7: with no containers labeled with the target project name,
reconstruction yields a Project with that name and an empty service list,
and the subsequent teardown performs only the two container listings and
the network listing — no stop, remove, or event operations — and returns
success when no networks exist. -/
theorem c7_empty_project_teardown (rt : Runtime) (pn : String) (b : Bool)
    (scheds : Nat → Nat → Nat)
    (hcl : rt.containerList pn = Except.ok [])
    (hnl : rt.networkList pn = Except.ok []) :
    projectFromContainerLabels rt pn =
      ([Op.containerListCall pn], Except.ok ⟨pn, []⟩) ∧
    Down rt pn ⟨none, b⟩ scheds =
      ([Op.containerListCall pn, Op.containerListCall pn,
        Op.networkListCall pn], none) := by
  have hrecon : projectFromContainerLabels rt pn =
      ([Op.containerListCall pn], Except.ok ⟨pn, []⟩) := by
    simp only [projectFromContainerLabels, hcl]
  refine ⟨hrecon, ?_⟩
  have hplan : inReverseDependencyOrderPlan ([] : List Service) =
      Except.ok [] := rfl
  have hrun : runServices rt scheds 0 [] [] = ([], [], none) := rfl
  have hcond : ¬((⟨none, b⟩ : DownOptions).removeOrphans = true ∧
      ([] : List Container) ≠ []) := by
    intro hc
    exact hc.2 rfl
  simp only [Down, hrecon, downWithProject, hcl, hplan, downBody, hrun,
    if_neg hcond, downNetworks, hnl, networkSweep]
  simp

/-- C7 witness: the empty-project teardown at a concrete runtime with no
containers and no networks. -/
theorem c7_empty_project_teardown_witness :
    Down rtOK "shop" ⟨none, true⟩ schedsId =
      ([Op.containerListCall "shop", Op.containerListCall "shop",
        Op.networkListCall "shop"], none) :=
  (c7_empty_project_teardown rtOK "shop" true schedsId rfl rfl).2

/-- C8: with `removeOrphans = false`, every operation of `Down` is the
container listing, the network listing, a network removal, or an operation
on behalf of a container matched by some declared service; consequently a
listed container matching no declared service is never stopped or removed
and no lifecycle event naming it is emitted.  The two injectivity
hypotheses are the resource-set invariant that identifiers and display
names are unique within one listing. -/
theorem c8_orphans_untouched (rt : Runtime) (pn : String) (p : Project)
    (scheds : Nat → Nat → Nat) (containers : List Container) (c : Container)
    (hlist : rt.containerList p.name = Except.ok containers)
    (hc : c ∈ containers)
    (hid : ∀ x ∈ containers, x.id = c.id → x = c)
    (hname : ∀ x ∈ containers, eventNameOf x = eventNameOf c → x = c)
    (horph : ∀ s ∈ p.services, isService s.name c = false) :
    ∀ op ∈ (Down rt pn ⟨some p, false⟩ scheds).1,
      (op = Op.containerListCall p.name ∨ op = Op.networkListCall pn ∨
        (∃ i, op = Op.networkRemoveCall i) ∨
        ∃ s ∈ p.services, ∃ x ∈ containers,
          isService s.name x = true ∧ opMentions x op) ∧
      op ≠ Op.stopCall c.id ∧ op ≠ Op.removeCall c.id ∧
      ∀ k d, op ≠ Op.ev ⟨k, eventNameOf c, d⟩ := by
  intro op hop
  simp only [Down, downWithProject, hlist] at hop
  cases hplan : inReverseDependencyOrderPlan p.services with
  | error e =>
    simp only [hplan] at hop
    simp only [List.nil_append, List.mem_singleton] at hop
    subst hop
    exact ⟨Or.inl rfl, fun hk => Op.noConfusion hk, fun hk => Op.noConfusion hk,
      fun k d hk => Op.noConfusion hk⟩
  | ok order =>
    simp only [hplan, List.nil_append] at hop
    rcases List.mem_append.mp hop with hop | hop
    · simp only [List.mem_singleton] at hop
      subst hop
      exact ⟨Or.inl rfl, fun hk => Op.noConfusion hk, fun hk => Op.noConfusion hk,
        fun k d hk => Op.noConfusion hk⟩
    · rcases downBody_ops_noorph rt pn ⟨some p, false⟩ scheds containers order rfl
        op hop with h | ⟨i, h⟩ | ⟨s, hs, x, hx, hsx, hm⟩
      · subst h
        exact ⟨Or.inr (Or.inl rfl), fun hk => Op.noConfusion hk,
          fun hk => Op.noConfusion hk, fun k d hk => Op.noConfusion hk⟩
      · subst h
        exact ⟨Or.inr (Or.inr (Or.inl ⟨i, rfl⟩)), fun hk => Op.noConfusion hk,
          fun hk => Op.noConfusion hk, fun k d hk => Op.noConfusion hk⟩
      · have hsp := plan_subset hplan s hs
        have hxc : x ≠ c := by
          intro hxc
          subst hxc
          rw [horph s hsp] at hsx
          exact Bool.noConfusion hsx
        refine ⟨Or.inr (Or.inr (Or.inr ⟨s, hsp, x, hx, hsx, hm⟩)), ?_, ?_, ?_⟩
        · intro hop2
          rcases hm with hm | hm | ⟨k2, d2, hm⟩
          · rw [hop2] at hm
            simp only [Op.stopCall.injEq] at hm
            exact hxc (hid x hx hm.symm)
          · rw [hop2] at hm
            exact Op.noConfusion hm
          · rw [hop2] at hm
            exact Op.noConfusion hm
        · intro hop2
          rcases hm with hm | hm | ⟨k2, d2, hm⟩
          · rw [hop2] at hm
            exact Op.noConfusion hm
          · rw [hop2] at hm
            simp only [Op.removeCall.injEq] at hm
            exact hxc (hid x hx hm.symm)
          · rw [hop2] at hm
            exact Op.noConfusion hm
        · intro k d hop2
          rcases hm with hm | hm | ⟨k2, d2, hm⟩
          · rw [hop2] at hm
            exact Op.noConfusion hm
          · rw [hop2] at hm
            exact Op.noConfusion hm
          · rw [hop2] at hm
            simp only [Op.ev.injEq, Event.mk.injEq] at hm
            exact hxc (hname x hx hm.2.1.symm)

/-- C8 witness: the undeclared `cache` container's stop call never appears
in the trace of a teardown of the one-service `shop` project with orphan
removal disabled. -/
theorem c8_orphans_untouched_witness :
    Op.stopCall "idcache" ∉ (Down rt8 "shop" ⟨some pShop, false⟩ schedsId).1 :=
  fun h =>
    ((c8_orphans_untouched rt8 "shop" pShop schedsId [cWeb, cCache] cCache
      rfl (by decide) (by decide) (by decide) (by decide)) _ h).2.1 rfl

/-- C9: in every invocation of `Down` with a supplied project, every
container-listing call in the trace uses `options.Project.Name` as its
filter and every network-listing call uses the `projectName` argument; when
the two names differ the containers and the networks torn down are
therefore selected by different project-label values. -/
theorem c9_filter_mismatch (rt : Runtime) (pn : String) (p : Project)
    (b : Bool) (scheds : Nat → Nat → Nat) :
    (∀ s, Op.containerListCall s ∈ (Down rt pn ⟨some p, b⟩ scheds).1 →
      s = p.name) ∧
    (∀ s, Op.networkListCall s ∈ (Down rt pn ⟨some p, b⟩ scheds).1 →
      s = pn) := by
  have hcases : ∀ op ∈ (Down rt pn ⟨some p, b⟩ scheds).1,
      op = Op.containerListCall p.name ∨ op = Op.networkListCall pn ∨
      (∃ i, op = Op.networkRemoveCall i) ∨ ∃ x, opMentions x op := by
    intro op hop
    simp only [Down, downWithProject] at hop
    cases hcl : rt.containerList p.name with
    | error e =>
      simp only [hcl, List.nil_append, List.mem_singleton] at hop
      exact Or.inl hop
    | ok containers =>
      simp only [hcl] at hop
      cases hplan : inReverseDependencyOrderPlan p.services with
      | error e =>
        simp only [hplan, List.nil_append, List.mem_singleton] at hop
        exact Or.inl hop
      | ok order =>
        simp only [hplan, List.nil_append] at hop
        rcases List.mem_append.mp hop with hop | hop
        · simp only [List.mem_singleton] at hop
          exact Or.inl hop
        · rcases downBody_ops_weak rt pn ⟨some p, b⟩ scheds containers order
            op hop with h | h | h
          · exact Or.inr (Or.inl h)
          · exact Or.inr (Or.inr (Or.inl h))
          · exact Or.inr (Or.inr (Or.inr h))
  constructor
  · intro s hmem
    rcases hcases _ hmem with h | h | ⟨i, h⟩ | ⟨x, hm⟩
    · simpa [Op.containerListCall.injEq] using h
    · exact Op.noConfusion h
    · exact Op.noConfusion h
    · exact absurd rfl ((opMentions_shape hm).1 s)
  · intro s hmem
    rcases hcases _ hmem with h | h | ⟨i, h⟩ | ⟨x, hm⟩
    · exact Op.noConfusion h
    · simpa [Op.networkListCall.injEq] using h
    · exact Op.noConfusion h
    · exact absurd rfl ((opMentions_shape hm).2.1 s)

/-- C9 witness: calling `Down` with `projectName = "net"` but a supplied
project named `"shop"` never lists containers with the `"net"` filter. -/
theorem c9_filter_mismatch_witness :
    Op.containerListCall "net" ∉
      (Down rtOK "net" ⟨some ⟨"shop", []⟩, false⟩ schedsId).1 :=
  fun h =>
    absurd ((c9_filter_mismatch rtOK "net" ⟨"shop", []⟩ false schedsId).1 "net" h)
      (by decide)
